import Mathlib

/-!
# Verification of the gpx-visual elevation pipeline

A shallow embedding of the numeric pipeline of `processGPX` (resampling,
moving-average smoothing, hysteresis gain/loss accumulation, curve
simplification, slope annotation, stats formatting), with theorems checking
the natural-language specification against it.

Conventions of the embedding:
* JS numbers are modelled as `ℚ` (all arithmetic in the pipeline is exact on
  the rationals except `Math.atan`/`Math.PI`, modelled over `ℝ`).
* `Number.prototype.toFixed(f)` and `Math.round` round half towards `+∞`
  (the ECMAScript tie rule "pick the larger n"), i.e. Mathlib's `round`.
* A JS `TypeError` crash (member access on `undefined`) is modelled by the
  `JsErr.typeError` branch of an `Except`.
* In-range list reads (`points[idx]`, `cumDist[idx]`) are modelled by
  `List.getD` with a default; the parser contract (one cumulative distance
  per point) keeps every such read of the guarded pipeline in range.
-/

namespace GpxVisual

/-- A raw track point; the pipeline only reads its elevation (meters). -/
structure TrackPoint where
  ele : ℚ
deriving Repr, DecidableEq, Inhabited

/-- The first track of a parsed file: the point sequence, the per-point
cumulative distances (`track.distance.cumul`) and the total distance
(`track.distance.total`), all supplied by the external GPX parser. -/
structure Track where
  points : List TrackPoint
  cumul : List ℚ
  total : ℚ
deriving Repr, DecidableEq, Inhabited

/-- A resampled elevation value at a fixed-step distance. -/
structure Sample where
  dist : ℚ
  ele : ℚ
deriving Repr, DecidableEq, Inhabited

/-- `const SAMPLE_DISTANCE = 25` — resample every 25 m. -/
def SAMPLE_DISTANCE : ℚ := 25

/-- `const SMOOTH_DISTANCE = 100` — smooth over a 100 m window. -/
def SMOOTH_DISTANCE : ℚ := 100

/-- `const THRESHOLD = 4` — ignore elevation changes smaller than 4 m. -/
def THRESHOLD : ℚ := 4

/-- The index-advance loop of the resampler:
`while (idx < points.length - 1 && cumDist[idx + 1] < d) idx++`. -/
def advanceIdx (cumul : List ℚ) (numPts : ℕ) (d : ℚ) (idx : ℕ) : ℕ :=
  if idx < numPts - 1 ∧ cumul.getD (idx + 1) 0 < d then
    advanceIdx cumul numPts d (idx + 1)
  else idx
termination_by numPts - idx
decreasing_by omega

/-- The body of one resampling iteration: either the last point's elevation
(when the index has reached the last point) or linear interpolation between
the bracketing points, with `t = 0` when the bracketing cumulative distances
coincide (`d2 > d1 ? (d - d1) / (d2 - d1) : 0`). -/
def sampleAt (points : List TrackPoint) (cumul : List ℚ) (idx : ℕ) (d : ℚ) :
    Sample :=
  if points.length - 1 ≤ idx then
    { dist := d, ele := (points.getD (points.length - 1) default).ele }
  else
    let d1 := cumul.getD idx 0
    let d2 := cumul.getD (idx + 1) 0
    let e1 := (points.getD idx default).ele
    let e2 := (points.getD (idx + 1) default).ele
    let t := if d1 < d2 then (d - d1) / (d2 - d1) else 0
    { dist := d, ele := e1 + t * (e2 - e1) }

/-- The resampling loop `for (let d = 0; d <= totalDist; d += S)`, threading
the monotonically advancing index.  `hS : 0 < S` guarantees termination; the
code only ever calls this with the positive constant step. -/
def resampleFrom (points : List TrackPoint) (cumul : List ℚ) (total S : ℚ)
    (hS : 0 < S) (idx : ℕ) (d : ℚ) : List Sample :=
  if h : d ≤ total then
    sampleAt points cumul (advanceIdx cumul points.length d idx) d ::
      resampleFrom points cumul total S hS
        (advanceIdx cumul points.length d idx) (d + S)
  else []
termination_by (⌊(total - d) / S⌋ + 1).toNat
decreasing_by
  have hfl : (total - (d + S)) / S = (total - d) / S - 1 := by
    rw [show total - (d + S) = total - d - S by ring, sub_div, div_self hS.ne']
  have h0 : (0 : ℚ) ≤ (total - d) / S := div_nonneg (by linarith) hS.le
  have h1 : (0 : ℤ) ≤ ⌊(total - d) / S⌋ := Int.floor_nonneg.mpr h0
  rw [hfl, Int.floor_sub_one]
  omega

/-- Step 1 of `processGPX`: resample to fixed distance intervals with linear
interpolation. -/
def resample (points : List TrackPoint) (cumul : List ℚ) (total S : ℚ)
    (hS : 0 < S) : List Sample :=
  resampleFrom points cumul total S hS 0 0

/-- The inner loop of the smoother,
`for (let j = Math.max(0, i - half); j <= Math.min(samples.length - 1, i + half); j++)`,
accumulating the running `sum` and `count` from index `j` up to `hi`. -/
def winSum (samples : List Sample) (j hi : ℕ) : ℚ × ℕ :=
  if j ≤ hi then
    ((samples.getD j default).ele + (winSum samples (j + 1) hi).1,
      (winSum samples (j + 1) hi).2 + 1)
  else (0, 0)
termination_by hi + 1 - j

/-- One element of the smoothed series: the window is
`[max(0, i - half), min(samples.length - 1, i + half)]`; `i - half` on `ℕ`
truncates at zero, which is exactly `Math.max(0, i - half)`. -/
def smoothAt (samples : List Sample) (half : ℕ) (i : ℕ) : Sample :=
  { dist := (samples.getD i default).dist,
    ele := (winSum samples (i - half) (min (samples.length - 1) (i + half))).1 /
      ((winSum samples (i - half) (min (samples.length - 1) (i + half))).2 : ℚ) }

/-- Step 2 of `processGPX`: centered moving-average smoothing
(`samples.map((sample, i) => ...)`). -/
def smooth (samples : List Sample) (half : ℕ) : List Sample :=
  (List.range samples.length).map (smoothAt samples half)

/-- `const windowSize = Math.floor(SMOOTH_DISTANCE / SAMPLE_DISTANCE)`. -/
def windowSize : ℤ := ⌊SMOOTH_DISTANCE / SAMPLE_DISTANCE⌋

/-- `const half = Math.floor(windowSize / 2)`; both quantities are
non-negative, so the `ℕ`-valued model is exact. -/
def halfWindow : ℕ := (⌊(windowSize : ℚ) / 2⌋).toNat

/-- The mutable state of the gain/loss loop:
`elevationGain`, `elevationLoss` and the current `anchor`. -/
structure AccState where
  elevationGain : ℚ
  elevationLoss : ℚ
  anchor : ℚ
deriving Repr, DecidableEq, Inhabited

/-- One iteration of the gain/loss loop: `diff = smoothed[i].ele - anchor`;
`diff >= THRESHOLD` commits a gain, `diff <= -THRESHOLD` commits a loss, and
both reset the anchor; otherwise the state is unchanged. -/
def accumStep (threshold : ℚ) (s : AccState) (e : ℚ) : AccState :=
  if threshold ≤ e - s.anchor then
    { elevationGain := s.elevationGain + (e - s.anchor),
      elevationLoss := s.elevationLoss, anchor := e }
  else if e - s.anchor ≤ -threshold then
    { elevationGain := s.elevationGain,
      elevationLoss := s.elevationLoss + |e - s.anchor|, anchor := e }
  else s

/-- Step 3 of `processGPX`: the loop `for (let i = 1; ...)` over the smoothed
elevations, starting from `anchor = smoothed[0].ele`, gain = loss = 0. -/
def accumulate (threshold : ℚ) (first : ℚ) (rest : List ℚ) : AccState :=
  rest.foldl (accumStep threshold) ⟨0, 0, first⟩

/-- `Math.max(...xs)` for a non-empty list (`Math.max()` of an empty spread
is `-Infinity`, which the guarded pipeline never produces). -/
def listMax : List ℚ → ℚ
  | [] => 0
  | e :: es => es.foldl max e

/-- `Math.min(...xs)` for a non-empty list. -/
def listMin : List ℚ → ℚ
  | [] => 0
  | e :: es => es.foldl min e

/-- A generic 2-D point handed to the curve simplifier
(`{ x: s.dist, y: s.ele }`). -/
structure Point where
  x : ℚ
  y : ℚ
deriving Repr, DecidableEq, Inhabited

/-- Modelled from the spec: the squared distance from `p` to the segment
`a`–`b`, the primitive of the polyline simplification collaborator
(`simplify-js`), whose source is not part of this repository. -/
def sqSegDist (p a b : Point) : ℚ :=
  if (b.x - a.x) = 0 ∧ (b.y - a.y) = 0 then
    (p.x - a.x) ^ 2 + (p.y - a.y) ^ 2
  else
    (fun t =>
      if 1 < t then (p.x - b.x) ^ 2 + (p.y - b.y) ^ 2
      else if 0 < t then
        (p.x - (a.x + (b.x - a.x) * t)) ^ 2 + (p.y - (a.y + (b.y - a.y) * t)) ^ 2
      else (p.x - a.x) ^ 2 + (p.y - a.y) ^ 2)
    (((p.x - a.x) * (b.x - a.x) + (p.y - a.y) * (b.y - a.y)) /
      ((b.x - a.x) * (b.x - a.x) + (b.y - a.y) * (b.y - a.y)))

/-- Modelled from the spec: the scan of one Douglas–Peucker step over the
interior indices `first+1 .. last-1`, tracking the index of the largest
squared segment distance; the running maximum starts at the squared
tolerance, so an index is only returned when the tolerance was exceeded. -/
def dpScan (pts : List Point) (first last : ℕ) (i : ℕ) (best : Option ℕ)
    (maxSq : ℚ) : Option ℕ × ℚ :=
  if i < last then
    if maxSq < sqSegDist (pts.getD i default) (pts.getD first default)
        (pts.getD last default) then
      dpScan pts first last (i + 1) (some i)
        (sqSegDist (pts.getD i default) (pts.getD first default)
          (pts.getD last default))
    else dpScan pts first last (i + 1) best maxSq
  else (best, maxSq)
termination_by last - i

/-- Modelled from the spec: one recursive Douglas–Peucker step between the
anchor indices `first` and `last`, emitting the retained interior points in
order.  The guard on the returned index always holds (the scan only returns
interior indices) and makes termination evident. -/
def dpStep (pts : List Point) (sqTol : ℚ) (first last : ℕ) : List Point :=
  match dpScan pts first last (first + 1) none sqTol with
  | (none, _) => []
  | (some index, maxSq) =>
    if h : first < index ∧ index < last ∧ sqTol < maxSq then
      dpStep pts sqTol first index ++
        pts.getD index default :: dpStep pts sqTol index last
    else []
termination_by last - first
decreasing_by all_goals omega

/-- Modelled from the spec: the endpoint-preserving Douglas–Peucker pass —
the first point, the retained interior points, then the last point. -/
def simplifyDouglasPeucker (pts : List Point) (sqTol : ℚ) : List Point :=
  pts.getD 0 default ::
    (dpStep pts sqTol 0 (pts.length - 1) ++ [pts.getD (pts.length - 1) default])

/-- Modelled from the spec: the polyline simplification collaborator
(`simplify-js`, imported by URL and not part of this repository), in the
"highest quality" mode the pipeline always requests: inputs of at most two
points are returned unchanged, otherwise a Douglas–Peucker pass runs with
the squared tolerance. -/
def simplify (pts : List Point) (tolerance : ℚ) : List Point :=
  if pts.length ≤ 2 then pts
  else simplifyDouglasPeucker pts (tolerance * tolerance)

/-- `const simplifyTolerance = 3`. -/
def simplifyTolerance : ℚ := 3

/-- The JS value stored in a chart point's `slope` field: the numeric
default `0`, or the decimal string produced by `.toFixed(1)` (a string, not
a number), identified by its numeric content. -/
inductive SlopeVal where
  | num : ℚ → SlopeVal
  | str : ℝ → SlopeVal
deriving Inhabited

/-- A chart-ready point `{ x, y, slope }`. -/
structure ChartPoint where
  x : ℚ
  y : ℚ
  slope : SlopeVal
deriving Inhabited

/-- The numeric content of `r.toFixed(1)`: `r` rounded to one decimal,
ECMAScript ties going up (Mathlib's `round`). -/
noncomputable def roundTo1 (r : ℝ) : ℝ := ((round (r * 10) : ℤ) : ℝ) / 10

/-- `Math.atan(grade / 100) * 180 / Math.PI` with
`grade = (dy / dx) * 100`. -/
noncomputable def slopeDegVal (dx dy : ℚ) : ℝ :=
  Real.arctan ((dy / dx * 100 / 100 : ℚ) : ℝ) * 180 / Real.pi

/-- The numeric content of the string assigned to `chartData[i].slope`:
`((Math.atan(grade / 100) * 180 / Math.PI).toFixed(1)`. -/
noncomputable def slopeStr (dx dy : ℚ) : ℝ := roundTo1 (slopeDegVal dx dy)

/-- `simplifiedPoints.map(p => ({ x: p.x, y: p.y, slope: 0 }))`. -/
def chartInit (pts : List Point) : List ChartPoint :=
  pts.map fun p => { x := p.x, y := p.y, slope := .num 0 }

/-- One iteration of the slope loop: read `dx`, `dy` from elements `i` and
`i+1`; when `dx > 0`, overwrite element `i`'s slope with the `.toFixed(1)`
string. -/
noncomputable def slopeLoopStep (c : List ChartPoint) (i : ℕ) : List ChartPoint :=
  if 0 < (c.getD (i + 1) default).x - (c.getD i default).x then
    c.set i
      { x := (c.getD i default).x, y := (c.getD i default).y,
        slope := .str (slopeStr
          ((c.getD (i + 1) default).x - (c.getD i default).x)
          ((c.getD (i + 1) default).y - (c.getD i default).y)) }
  else c

/-- The slope loop `for (let i = 0; i < chartData.length - 1; i++)`. -/
noncomputable def slopeLoop (c : List ChartPoint) (i : ℕ) : List ChartPoint :=
  if i < c.length - 1 then slopeLoop (slopeLoopStep c i) (i + 1) else c
termination_by c.length - i
decreasing_by
  have hlen : (slopeLoopStep c i).length = c.length := by
    rw [slopeLoopStep]
    split <;> simp
  omega

/-- Chart-data preparation: the default-slope projection followed by the
slope loop. -/
noncomputable def annotateSlopes (pts : List Point) : List ChartPoint :=
  slopeLoop (chartInit pts) 0

/-- The numeric content of `x.toFixed(f)` (ECMAScript ties go up). -/
def toFixedVal (f : ℕ) (x : ℚ) : ℚ := ((round (x * 10 ^ f) : ℤ) : ℚ) / 10 ^ f

/-- The `stats` record; string-valued fields are identified by their numeric
content (`distance`, `maxElevation`, `minElevation` from `toFixed`,
`elevationGain`/`elevationLoss` from `Math.round(..).toString()`). -/
structure Stats where
  distance : ℚ
  totalDistance : ℚ
  elevationGain : ℤ
  elevationLoss : ℤ
  maxElevation : ℚ
  minElevation : ℚ
deriving Repr, DecidableEq, Inhabited

/-- The value returned by `processGPX`. -/
structure Output where
  stats : Stats
  chartData : List ChartPoint

/-- How a `processGPX` call can fail: the explicit
`"No tracks found in GPX file"` error, or a JS `TypeError` crash from a
member access on `undefined`. -/
inductive JsErr where
  | noTrackData
  | typeError
deriving Repr, DecidableEq

/-- Step 1 of the pipeline with the default 25 m step, as invoked by
`processGPX`. -/
def resampleDefault (track : Track) : List Sample :=
  resample track.points track.cumul track.total SAMPLE_DISTANCE
    (by norm_num [SAMPLE_DISTANCE])

/-- The stats record built at the end of `processGPX` from the total
distance, the accumulator state and the smoothed series. -/
def mkStats (total : ℚ) (acc : AccState) (smoothed : List Sample) : Stats :=
  { distance := toFixedVal 2 (total / 1000),
    totalDistance := total,
    elevationGain := round acc.elevationGain,
    elevationLoss := round acc.elevationLoss,
    maxElevation := toFixedVal 0 (listMax (smoothed.map (·.ele))),
    minElevation := toFixedVal 0 (listMin (smoothed.map (·.ele))) }

/-- The pipeline entry `processGPX`.  An empty track list raises the
explicit error; an empty point list is not checked by the code and instead
crashes with a `TypeError` (`points[points.length - 1].ele` reads `.ele` of
`undefined`; when `totalDist < 0` the resampler yields no samples and
`smoothed[0].ele` crashes the same way), modelled by the `typeError`
branches. -/
noncomputable def processGPX (tracks : List Track) : Except JsErr Output :=
  match tracks with
  | [] => .error .noTrackData
  | track :: _ =>
    if track.points.isEmpty then .error .typeError
    else
      let samples := resampleDefault track
      if samples.isEmpty then .error .typeError
      else
        let smoothed := smooth samples halfWindow
        let acc := accumulate THRESHOLD
          ((smoothed.getD 0 default).ele) ((smoothed.drop 1).map (·.ele))
        let simplifiedPoints :=
          simplify (smoothed.map fun s => { x := s.dist, y := s.ele })
            simplifyTolerance
        .ok { stats := mkStats track.total acc smoothed,
              chartData := annotateSlopes simplifiedPoints }

/-- The stats record of a pipeline result (the default record when the
pipeline failed; only used under hypotheses that rule failure out). -/
def statsOf : Except JsErr Output → Stats
  | .ok o => o.stats
  | .error _ => default

/-! ## Helper lemmas -/

theorem advanceIdx_stop {cumul : List ℚ} {numPts : ℕ} {d : ℚ} {idx : ℕ}
    (h : ¬ (idx < numPts - 1 ∧ cumul.getD (idx + 1) 0 < d)) :
    advanceIdx cumul numPts d idx = idx := by
  rw [advanceIdx, if_neg h]

theorem advanceIdx_step {cumul : List ℚ} {numPts : ℕ} {d : ℚ} {idx : ℕ}
    (h : idx < numPts - 1 ∧ cumul.getD (idx + 1) 0 < d) :
    advanceIdx cumul numPts d idx = advanceIdx cumul numPts d (idx + 1) := by
  conv_lhs => rw [advanceIdx]
  rw [if_pos h]

theorem resampleFrom_step {points : List TrackPoint} {cumul : List ℚ}
    {total S : ℚ} {hS : 0 < S} {idx : ℕ} {d : ℚ} (h : d ≤ total) :
    resampleFrom points cumul total S hS idx d =
      sampleAt points cumul (advanceIdx cumul points.length d idx) d ::
        resampleFrom points cumul total S hS
          (advanceIdx cumul points.length d idx) (d + S) := by
  conv_lhs => rw [resampleFrom]
  rw [dif_pos h]

theorem resampleFrom_stop {points : List TrackPoint} {cumul : List ℚ}
    {total S : ℚ} {hS : 0 < S} {idx : ℕ} {d : ℚ} (h : ¬ d ≤ total) :
    resampleFrom points cumul total S hS idx d = [] := by
  rw [resampleFrom, dif_neg h]

theorem sampleAt_dist (points : List TrackPoint) (cumul : List ℚ) (idx : ℕ)
    (d : ℚ) : (sampleAt points cumul idx d).dist = d := by
  rw [sampleAt]
  split <;> rfl

/-- The floor term that counts the remaining loop iterations drops by one
when `d` advances by `S`. -/
theorem floor_succ_drop {total S d : ℚ} (hS : 0 < S) :
    ⌊(total - (d + S)) / S⌋ = ⌊(total - d) / S⌋ - 1 := by
  rw [show total - (d + S) = total - d - S by ring, sub_div, div_self hS.ne',
    Int.floor_sub_one]

/-- The length of the resampling loop's output, for every starting
distance `d`. -/
theorem resampleFrom_length (points : List TrackPoint) (cumul : List ℚ)
    (total S : ℚ) (hS : 0 < S) (idx : ℕ) (d : ℚ) :
    (resampleFrom points cumul total S hS idx d).length =
      (⌊(total - d) / S⌋ + 1).toNat := by
  by_cases h : d ≤ total
  · rw [resampleFrom_step h, List.length_cons,
      resampleFrom_length points cumul total S hS
        (advanceIdx cumul points.length d idx) (d + S),
      floor_succ_drop hS]
    have h0 : (0 : ℚ) ≤ (total - d) / S := div_nonneg (by linarith) hS.le
    have h1 : (0 : ℤ) ≤ ⌊(total - d) / S⌋ := Int.floor_nonneg.mpr h0
    omega
  · rw [resampleFrom_stop h, List.length_nil]
    have h0 : (total - d) / S < 0 :=
      div_neg_of_neg_of_pos (by linarith [not_le.mp h]) hS
    have h1 : ⌊(total - d) / S⌋ < 0 := Int.floor_lt.mpr (by simpa using h0)
    omega
termination_by (⌊(total - d) / S⌋ + 1).toNat
decreasing_by
  rw [floor_succ_drop hS]
  have h0 : (0 : ℚ) ≤ (total - d) / S := div_nonneg (by linarith) hS.le
  have h1 : (0 : ℤ) ≤ ⌊(total - d) / S⌋ := Int.floor_nonneg.mpr h0
  omega

/-- Every sample the resampling loop emits sits at `d + k * S`. -/
theorem resampleFrom_getD_dist (points : List TrackPoint) (cumul : List ℚ)
    (total S : ℚ) (hS : 0 < S) (idx : ℕ) (d : ℚ) (k : ℕ)
    (hk : k < (resampleFrom points cumul total S hS idx d).length) :
    ((resampleFrom points cumul total S hS idx d).getD k default).dist =
      d + k * S := by
  by_cases h : d ≤ total
  · rcases k with _ | k
    · rw [resampleFrom_step h]
      simp [sampleAt_dist]
    · rw [resampleFrom_step h]
      rw [List.getD_cons_succ]
      have hk' : k < (resampleFrom points cumul total S hS
          (advanceIdx cumul points.length d idx) (d + S)).length := by
        rw [resampleFrom_step h] at hk
        simpa using hk
      rw [resampleFrom_getD_dist points cumul total S hS
        (advanceIdx cumul points.length d idx) (d + S) k hk']
      push_cast
      ring
  · rw [resampleFrom_stop h] at hk
    simp at hk
termination_by (⌊(total - d) / S⌋ + 1).toNat
decreasing_by
  rw [floor_succ_drop hS]
  have h0 : (0 : ℚ) ≤ (total - d) / S := div_nonneg (by linarith) hS.le
  have h1 : (0 : ℤ) ≤ ⌊(total - d) / S⌋ := Int.floor_nonneg.mpr h0
  omega

/-! ## Claim C4 — resampled sequence length and sample grid -/

/-- C4: for every track (point/cumulative-distance data) with total distance
`total ≥ 0` and step `S`, the resampled sequence has length exactly
`⌊total / S⌋ + 1`, and the `k`-th sample sits at distance `k * S` — so the
samples run over `0, S, 2S, …` up to the largest multiple of `S` not
exceeding the total distance. -/
theorem resample_length_and_grid (points : List TrackPoint) (cumul : List ℚ)
    (total S : ℚ) (hS : 0 < S) (htot : 0 ≤ total) :
    (resample points cumul total S hS).length = (⌊total / S⌋).toNat + 1 ∧
    ∀ k, k < (resample points cumul total S hS).length →
      ((resample points cumul total S hS).getD k default).dist = k * S := by
  constructor
  · rw [resample, resampleFrom_length, sub_zero]
    have h1 : (0 : ℤ) ≤ ⌊total / S⌋ :=
      Int.floor_nonneg.mpr (div_nonneg htot hS.le)
    omega
  · intro k hk
    rw [resample] at hk ⊢
    rw [resampleFrom_getD_dist points cumul total S hS 0 0 k hk, zero_add]

/-- Witness for C4 at a concrete three-point track of total distance 60:
three samples, the third at distance 50. -/
theorem resample_length_and_grid_witness :
    (0 : ℚ) ≤ 60 ∧
    (resample [⟨0⟩, ⟨10⟩, ⟨30⟩] [0, 20, 60] 60 25 (by norm_num)).length = 3 ∧
    ((resample [⟨0⟩, ⟨10⟩, ⟨30⟩] [0, 20, 60] 60 25
      (by norm_num)).getD 2 default).dist = 50 := by
  refine ⟨by norm_num, ?_, ?_⟩
  · rw [(resample_length_and_grid [⟨0⟩, ⟨10⟩, ⟨30⟩] [0, 20, 60] 60 25
      (by norm_num) (by norm_num)).1]
    norm_num
    decide
  · have h := (resample_length_and_grid [⟨0⟩, ⟨10⟩, ⟨30⟩] [0, 20, 60] 60 25
      (by norm_num) (by norm_num))
    rw [h.2 2 (by rw [h.1]; norm_num; decide)]
    norm_num

/-! ## Claim C9 — interpolation guards of the resampler -/

/-- C9: the resampler's interpolation is guarded: with coincident bracketing
cumulative distances the fractional position is taken to be 0 and the sample
elevation equals the earlier point's elevation; when the advancing index has
reached the last point, the last point's elevation is used (no out-of-range
access — in particular a single-point track of total distance 0 yields the
single sample `(0, ele)`). -/
theorem resampler_interpolation_guards :
    (∀ (points : List TrackPoint) (cumul : List ℚ) (idx : ℕ) (d : ℚ),
      idx < points.length - 1 →
      cumul.getD (idx + 1) 0 = cumul.getD idx 0 →
      (sampleAt points cumul idx d).ele = (points.getD idx default).ele) ∧
    (∀ (points : List TrackPoint) (cumul : List ℚ) (idx : ℕ) (d : ℚ),
      points.length - 1 ≤ idx →
      (sampleAt points cumul idx d).ele =
        (points.getD (points.length - 1) default).ele) ∧
    (∀ (p : TrackPoint) (cumul : List ℚ) (S : ℚ) (hS : 0 < S),
      resample [p] cumul 0 S hS = [⟨0, p.ele⟩]) := by
  refine ⟨?_, ?_, ?_⟩
  · intro points cumul idx d hidx heq
    rw [sampleAt, if_neg (by omega)]
    simp only [heq, lt_irrefl, if_false]
    ring_nf
  · intro points cumul idx d hidx
    rw [sampleAt, if_pos hidx]
  · intro p cumul S hS
    rw [resample, resampleFrom_step (le_refl 0), advanceIdx_stop (by simp),
      resampleFrom_stop (by simp; linarith)]
    simp [sampleAt]

/-- Witness for C9: concrete instances of all three guards. -/
theorem resampler_interpolation_guards_witness :
    ((0 : ℕ) < ([⟨5⟩, ⟨7⟩] : List TrackPoint).length - 1 ∧
      ([30, 30] : List ℚ).getD 1 0 = ([30, 30] : List ℚ).getD 0 0 ∧
      (sampleAt [⟨5⟩, ⟨7⟩] [30, 30] 0 10).ele = 5) ∧
    (([⟨5⟩, ⟨7⟩] : List TrackPoint).length - 1 ≤ 1 ∧
      (sampleAt [⟨5⟩, ⟨7⟩] [30, 30] 1 10).ele = 7) ∧
    ((0 : ℚ) < 25 ∧ resample [⟨9⟩] [0] 0 25 (by norm_num) = [⟨0, 9⟩]) := by
  refine ⟨⟨by norm_num, by norm_num, ?_⟩, ⟨by norm_num, ?_⟩, by norm_num, ?_⟩
  · rw [resampler_interpolation_guards.1 [⟨5⟩, ⟨7⟩] [30, 30] 0 10
      (by norm_num) (by norm_num)]
    norm_num
  · rw [resampler_interpolation_guards.2.1 [⟨5⟩, ⟨7⟩] [30, 30] 1 10
      (by norm_num)]
    norm_num
  · exact resampler_interpolation_guards.2.2 ⟨9⟩ [0] 25 (by norm_num)

/-! ## Accumulator lemmas (claims C5, C10) -/

theorem le_foldl_max : ∀ (l : List ℚ) (a : ℚ), a ≤ l.foldl max a
  | [], _ => le_refl _
  | b :: l, a => le_trans (le_max_left a b) (le_foldl_max l (max a b))

theorem mem_le_foldl_max : ∀ (l : List ℚ) (a x : ℚ), x ∈ l → x ≤ l.foldl max a
  | b :: l, a, x, hx => by
    rcases List.mem_cons.mp hx with rfl | hx
    · exact le_trans (le_max_right a x) (le_foldl_max l (max a x))
    · exact mem_le_foldl_max l (max a b) x hx

theorem foldl_min_le : ∀ (l : List ℚ) (a : ℚ), l.foldl min a ≤ a
  | [], _ => le_refl _
  | b :: l, a => le_trans (foldl_min_le l (min a b)) (min_le_left a b)

theorem foldl_min_le_mem : ∀ (l : List ℚ) (a x : ℚ), x ∈ l → l.foldl min a ≤ x
  | b :: l, a, x, hx => by
    rcases List.mem_cons.mp hx with rfl | hx
    · exact le_trans (foldl_min_le l (min a x)) (min_le_right a x)
    · exact foldl_min_le_mem l (min a b) x hx

theorem le_listMax {l : List ℚ} {x : ℚ} (hx : x ∈ l) : x ≤ listMax l := by
  rcases l with _ | ⟨e, es⟩
  · cases hx
  · rcases List.mem_cons.mp hx with rfl | hx
    · exact le_foldl_max es x
    · exact mem_le_foldl_max es e x hx

theorem listMin_le {l : List ℚ} {x : ℚ} (hx : x ∈ l) : listMin l ≤ x := by
  rcases l with _ | ⟨e, es⟩
  · cases hx
  · rcases List.mem_cons.mp hx with rfl | hx
    · exact foldl_min_le es x
    · exact foldl_min_le_mem es e x hx

/-- If every elevation stays strictly within the threshold of every other,
the accumulator never commits and its state is left untouched. -/
theorem foldl_accumStep_no_commit (T : ℚ) (big : List ℚ)
    (hb : ∀ x ∈ big, ∀ y ∈ big, x - y < T) :
    ∀ (l : List ℚ), (∀ e ∈ l, e ∈ big) → ∀ s : AccState, s.anchor ∈ big →
      l.foldl (accumStep T) s = s := by
  intro l
  induction l with
  | nil => intro _ s _; rfl
  | cons e l ih =>
    intro hl s hs
    have he : e ∈ big := hl e (List.mem_cons_self e l)
    have h1 : ¬ T ≤ e - s.anchor := by
      have := hb e he s.anchor hs
      linarith
    have h2 : ¬ e - s.anchor ≤ -T := by
      have := hb s.anchor hs e he
      linarith
    have hstep : accumStep T s e = s := by
      rw [accumStep, if_neg h1, if_neg h2]
    rw [List.foldl_cons, hstep]
    exact ih (fun x hx => hl x (List.mem_cons_of_mem e hx)) s hs

/-- `gain - loss - anchor` is preserved by every accumulator step (for a
non-negative threshold). -/
theorem accumStep_const (T : ℚ) (hT : 0 ≤ T) (s : AccState) (e : ℚ) :
    (accumStep T s e).elevationGain - (accumStep T s e).elevationLoss -
        (accumStep T s e).anchor =
      s.elevationGain - s.elevationLoss - s.anchor := by
  rw [accumStep]
  split
  · simp; ring
  · split
    · rename_i h1 h2
      have habs : |e - s.anchor| = -(e - s.anchor) :=
        abs_of_nonpos (by linarith)
      simp [habs]
      ring
    · rfl

theorem foldl_accumStep_const (T : ℚ) (hT : 0 ≤ T) :
    ∀ (l : List ℚ) (s : AccState),
      (l.foldl (accumStep T) s).elevationGain -
          (l.foldl (accumStep T) s).elevationLoss -
          (l.foldl (accumStep T) s).anchor =
        s.elevationGain - s.elevationLoss - s.anchor := by
  intro l
  induction l with
  | nil => intro s; rfl
  | cons e l ih =>
    intro s
    rw [List.foldl_cons, ih (accumStep T s e), accumStep_const T hT s e]

/-- Gain and loss never decrease along the accumulator fold (for a
non-negative threshold). -/
theorem foldl_accumStep_mono (T : ℚ) (hT : 0 ≤ T) :
    ∀ (l : List ℚ) (s : AccState),
      s.elevationGain ≤ (l.foldl (accumStep T) s).elevationGain ∧
      s.elevationLoss ≤ (l.foldl (accumStep T) s).elevationLoss := by
  intro l
  induction l with
  | nil => intro s; exact ⟨le_refl _, le_refl _⟩
  | cons e l ih =>
    intro s
    have hstep : s.elevationGain ≤ (accumStep T s e).elevationGain ∧
        s.elevationLoss ≤ (accumStep T s e).elevationLoss := by
      rw [accumStep]
      split
      · rename_i h1
        constructor <;> simp
        linarith
      · split
        · constructor <;> simp
        · exact ⟨le_refl _, le_refl _⟩
    rw [List.foldl_cons]
    exact ⟨le_trans hstep.1 (ih (accumStep T s e)).1,
      le_trans hstep.2 (ih (accumStep T s e)).2⟩

/-! ## Claim C5 — threshold rejection -/

/-- C5: a non-empty smoothed elevation sequence whose total range (max minus
min) is strictly below the 4 m threshold yields `elevationGain = 0` and
`elevationLoss = 0`. -/
theorem accumulate_threshold_rejection (e0 : ℚ) (rest : List ℚ)
    (h : listMax (e0 :: rest) - listMin (e0 :: rest) < THRESHOLD) :
    (accumulate THRESHOLD e0 rest).elevationGain = 0 ∧
    (accumulate THRESHOLD e0 rest).elevationLoss = 0 := by
  have hb : ∀ x ∈ e0 :: rest, ∀ y ∈ e0 :: rest, x - y < THRESHOLD := by
    intro x hx y hy
    have h1 := le_listMax hx
    have h2 := listMin_le hy
    linarith
  have hfix : rest.foldl (accumStep THRESHOLD) ⟨0, 0, e0⟩ = ⟨0, 0, e0⟩ :=
    foldl_accumStep_no_commit THRESHOLD (e0 :: rest) hb rest
      (fun e he => List.mem_cons_of_mem e0 he) ⟨0, 0, e0⟩
      (List.mem_cons_self e0 rest)
  rw [accumulate, hfix]
  exact ⟨rfl, rfl⟩

/-- Witness for C5: elevations 10, 11, 12 span a range of 2 < 4 and commit
nothing. -/
theorem accumulate_threshold_rejection_witness :
    listMax [10, 11, 12] - listMin [10, 11, 12] < THRESHOLD ∧
    (accumulate THRESHOLD 10 [11, 12]).elevationGain = 0 ∧
    (accumulate THRESHOLD 10 [11, 12]).elevationLoss = 0 := by
  refine ⟨?_, accumulate_threshold_rejection 10 [11, 12] ?_⟩ <;>
    norm_num [listMax, listMin, THRESHOLD, max_def, min_def]

/-! ## Claim C10 — accumulator fold invariant -/

/-- C10: after any prefix of the smoothed tail, the accumulator satisfies
`gain - loss = anchor - first`, gain and loss only grow as the fold
continues, and both are non-negative. -/
theorem accumulate_fold_invariant (e0 : ℚ) (l₁ l₂ : List ℚ) :
    (accumulate THRESHOLD e0 l₁).elevationGain -
        (accumulate THRESHOLD e0 l₁).elevationLoss =
      (accumulate THRESHOLD e0 l₁).anchor - e0 ∧
    (accumulate THRESHOLD e0 l₁).elevationGain ≤
      (accumulate THRESHOLD e0 (l₁ ++ l₂)).elevationGain ∧
    (accumulate THRESHOLD e0 l₁).elevationLoss ≤
      (accumulate THRESHOLD e0 (l₁ ++ l₂)).elevationLoss ∧
    0 ≤ (accumulate THRESHOLD e0 (l₁ ++ l₂)).elevationGain ∧
    0 ≤ (accumulate THRESHOLD e0 (l₁ ++ l₂)).elevationLoss := by
  have hT : (0 : ℚ) ≤ THRESHOLD := by norm_num [THRESHOLD]
  have hconst := foldl_accumStep_const THRESHOLD hT l₁ ⟨0, 0, e0⟩
  have happ : accumulate THRESHOLD e0 (l₁ ++ l₂) =
      l₂.foldl (accumStep THRESHOLD) (accumulate THRESHOLD e0 l₁) := by
    rw [accumulate, accumulate, List.foldl_append]
  have hmono := foldl_accumStep_mono THRESHOLD hT l₂
    (accumulate THRESHOLD e0 l₁)
  have hmono0 := foldl_accumStep_mono THRESHOLD hT (l₁ ++ l₂)
    (⟨0, 0, e0⟩ : AccState)
  refine ⟨?_, ?_, ?_, ?_, ?_⟩
  · have : (accumulate THRESHOLD e0 l₁).elevationGain -
        (accumulate THRESHOLD e0 l₁).elevationLoss -
        (accumulate THRESHOLD e0 l₁).anchor = 0 - 0 - e0 := hconst
    linarith
  · rw [happ]; exact hmono.1
  · rw [happ]; exact hmono.2
  · exact hmono0.1
  · exact hmono0.2

/-! ## Smoother lemmas (claim C6) -/

/-- The smoothing window loop computes the sum over the index interval
`[j, hi]` and counts its size. -/
theorem winSum_spec (samples : List Sample) (j hi : ℕ) :
    winSum samples j hi =
      (∑ k in Finset.Icc j hi, (samples.getD k default).ele, hi + 1 - j) := by
  by_cases h : j ≤ hi
  · rw [winSum, if_pos h, winSum_spec samples (j + 1) hi]
    have hins : Finset.Icc j hi = insert j (Finset.Icc (j + 1) hi) := by
      ext x
      simp only [Finset.mem_Icc, Finset.mem_insert]
      omega
    rw [hins, Finset.sum_insert (by simp [Finset.mem_Icc])]
    have hcnt : hi + 1 - (j + 1) + 1 = hi + 1 - j := by omega
    rw [hcnt]
  · rw [winSum, if_neg h, Finset.Icc_eq_empty (by omega), Finset.sum_empty]
    have hcnt : hi + 1 - j = 0 := by omega
    rw [hcnt]
termination_by hi + 1 - j
decreasing_by omega

theorem smooth_length (samples : List Sample) (half : ℕ) :
    (smooth samples half).length = samples.length := by
  simp [smooth]

theorem smooth_getD (samples : List Sample) (half i : ℕ)
    (hi : i < samples.length) :
    (smooth samples half).getD i default = smoothAt samples half i := by
  rw [smooth]
  have h1 : i < ((List.range samples.length).map (smoothAt samples half)).length := by
    simpa using hi
  rw [List.getD_eq_getElem _ _ h1]
  simp

/-! ## Claim C6 — smoothing preserves length and distances, averages
elevations -/

/-- C6: the smoother's output has the same length as its input, keeps every
distance unchanged, and replaces each elevation by the arithmetic mean of
the input elevations over the boundary-clipped window
`[max(0, i - half), min(n - 1, i + half)]` (`i - half` truncates at 0 on
`ℕ`). -/
theorem smooth_frame_and_mean (samples : List Sample) (half i : ℕ)
    (hi : i < samples.length) :
    (smooth samples half).length = samples.length ∧
    ((smooth samples half).getD i default).dist =
      (samples.getD i default).dist ∧
    ((smooth samples half).getD i default).ele =
      (∑ k in Finset.Icc (i - half) (min (samples.length - 1) (i + half)),
          (samples.getD k default).ele) /
        (((Finset.Icc (i - half)
            (min (samples.length - 1) (i + half))).card : ℕ) : ℚ) := by
  refine ⟨smooth_length samples half, ?_, ?_⟩
  · rw [smooth_getD samples half i hi, smoothAt]
  · rw [smooth_getD samples half i hi, smoothAt]
    simp only [winSum_spec, Nat.card_Icc]

/-- Witness for C6 on two samples with the pipeline's half-window 2: the
first smoothed sample keeps distance 0 and averages both elevations. -/
theorem smooth_frame_and_mean_witness :
    (0 : ℕ) < ([⟨0, 1⟩, ⟨25, 3⟩] : List Sample).length ∧
    (smooth [⟨0, 1⟩, ⟨25, 3⟩] 2).length = 2 ∧
    ((smooth [⟨0, 1⟩, ⟨25, 3⟩] 2).getD 0 default).dist = 0 ∧
    ((smooth [⟨0, 1⟩, ⟨25, 3⟩] 2).getD 0 default).ele = 2 := by
  have h := smooth_frame_and_mean [⟨0, 1⟩, ⟨25, 3⟩] 2 0 (by norm_num)
  refine ⟨by norm_num, by rw [h.1]; rfl, by rw [h.2.1]; rfl, ?_⟩
  rw [h.2.2]
  norm_num
  rw [show Finset.Icc 0 1 = ({0, 1} : Finset ℕ) from by decide]
  rw [Finset.sum_insert (by decide), Finset.sum_singleton]
  norm_num

/-! ## Simplifier lemmas (claim C7) -/

/-- Every interior point a Douglas–Peucker step retains comes from the
input list. -/
theorem dpStep_subset (pts : List Point) (sqTol : ℚ) (first last : ℕ)
    (hlast : last < pts.length) :
    ∀ q ∈ dpStep pts sqTol first last, q ∈ pts := by
  intro q hq
  rw [dpStep] at hq
  split at hq
  · cases hq
  · split at hq
    · rename_i index maxSq heq h
      rcases List.mem_append.mp hq with hq | hq
      · exact dpStep_subset pts sqTol first index (by omega) q hq
      · rcases List.mem_cons.mp hq with rfl | hq
        · rw [List.getD_eq_getElem _ _ (by omega : index < pts.length)]
          exact List.getElem_mem _
        · exact dpStep_subset pts sqTol index last hlast q hq
    · cases hq
termination_by last - first
decreasing_by all_goals omega

/-- A Douglas–Peucker step retains at most the interior points of its
range. -/
theorem dpStep_length (pts : List Point) (sqTol : ℚ) (first last : ℕ) :
    (dpStep pts sqTol first last).length ≤ last - (first + 1) := by
  rw [dpStep]
  split
  · simp
  · split
    · rename_i index maxSq heq h
      have hA := dpStep_length pts sqTol first index
      have hB := dpStep_length pts sqTol index last
      simp only [List.length_append, List.length_cons]
      omega
    · simp
termination_by last - first
decreasing_by all_goals omega

/-! ## Claim C7 — simplification fidelity -/

/-- C7: for every non-empty input, the curve simplifier keeps the first and
last input points unchanged, returns at most as many points as it was
given, and only ever returns points of the input. -/
theorem simplify_fidelity (pts : List Point) (tol : ℚ) (hne : pts ≠ []) :
    (simplify pts tol).head? = pts.head? ∧
    (simplify pts tol).getLast? = pts.getLast? ∧
    (simplify pts tol).length ≤ pts.length ∧
    ∀ q ∈ simplify pts tol, q ∈ pts := by
  rw [simplify]
  split
  · exact ⟨rfl, rfl, le_refl _, fun q hq => hq⟩
  · rename_i hgt
    have h3 : 3 ≤ pts.length := by omega
    have h0 : 0 < pts.length := by omega
    have hlast : pts.length - 1 < pts.length := by omega
    rw [simplifyDouglasPeucker]
    refine ⟨?_, ?_, ?_, ?_⟩
    · rw [List.head?_cons, List.getD_eq_getElem _ _ h0,
        List.head?_eq_getElem?, List.getElem?_eq_getElem h0]
    · rw [show pts.getD 0 default ::
          (dpStep pts (tol * tol) 0 (pts.length - 1) ++
            [pts.getD (pts.length - 1) default]) =
          (pts.getD 0 default ::
            dpStep pts (tol * tol) 0 (pts.length - 1)) ++
            [pts.getD (pts.length - 1) default] from rfl,
        List.getLast?_concat, List.getD_eq_getElem _ _ hlast,
        List.getLast?_eq_getElem?, List.getElem?_eq_getElem hlast]
    · have hd := dpStep_length pts (tol * tol) 0 (pts.length - 1)
      simp only [List.length_cons, List.length_append, List.length_nil]
      omega
    · intro q hq
      rcases List.mem_cons.mp hq with rfl | hq
      · rw [List.getD_eq_getElem _ _ h0]
        exact List.getElem_mem _
      · rcases List.mem_append.mp hq with hq | hq
        · exact dpStep_subset pts (tol * tol) 0 (pts.length - 1) hlast q hq
        · rcases List.mem_singleton.mp hq with rfl
          rw [List.getD_eq_getElem _ _ hlast]
          exact List.getElem_mem _

/-- Witness for C7 on a concrete two-point input. -/
theorem simplify_fidelity_witness :
    ([⟨0, 0⟩, ⟨50, 9⟩] : List Point) ≠ [] ∧
    (simplify [⟨0, 0⟩, ⟨50, 9⟩] 3).head? =
      ([⟨0, 0⟩, ⟨50, 9⟩] : List Point).head? ∧
    (simplify [⟨0, 0⟩, ⟨50, 9⟩] 3).getLast? =
      ([⟨0, 0⟩, ⟨50, 9⟩] : List Point).getLast? ∧
    (simplify [⟨0, 0⟩, ⟨50, 9⟩] 3).length ≤ 2 := by
  have h := simplify_fidelity [⟨0, 0⟩, ⟨50, 9⟩] 3 (by simp)
  exact ⟨by simp, h.1, h.2.1, by simpa using h.2.2.1⟩

/-! ## Slope annotator lemmas (claims C2, C8) -/

theorem getD_set_self {α : Type} (l : List α) (i : ℕ) (a d : α)
    (h : i < l.length) : (l.set i a).getD i d = a := by
  rw [List.getD_eq_getElem?_getD, List.getElem?_set_self' ]
  simp [List.getElem?_eq_getElem h]

theorem getD_set_ne {α : Type} (l : List α) (i k : ℕ) (a d : α)
    (h : i ≠ k) : (l.set i a).getD k d = l.getD k d := by
  rw [List.getD_eq_getElem?_getD, List.getElem?_set_ne h,
    List.getD_eq_getElem?_getD]

theorem slopeLoopStep_length (c : List ChartPoint) (i : ℕ) :
    (slopeLoopStep c i).length = c.length := by
  rw [slopeLoopStep]
  split <;> simp

/-- An iteration of the slope loop rewrites only the element at its own
index. -/
theorem slopeLoopStep_getD_ne (c : List ChartPoint) (i k : ℕ) (h : i ≠ k) :
    (slopeLoopStep c i).getD k default = c.getD k default := by
  rw [slopeLoopStep]
  split
  · exact getD_set_ne c i k _ default h
  · rfl

theorem slopeLoop_length (c : List ChartPoint) (i : ℕ) :
    (slopeLoop c i).length = c.length := by
  rw [slopeLoop]
  split
  · rw [slopeLoop_length (slopeLoopStep c i) (i + 1), slopeLoopStep_length]
  · rfl
termination_by c.length - i
decreasing_by
  rw [slopeLoopStep_length]
  omega

/-- The slope loop never touches indices below its loop counter. -/
theorem slopeLoop_getD_lt (c : List ChartPoint) (i k : ℕ) (hk : k < i) :
    (slopeLoop c i).getD k default = c.getD k default := by
  rw [slopeLoop]
  split
  · rw [slopeLoop_getD_lt (slopeLoopStep c i) (i + 1) k (by omega),
      slopeLoopStep_getD_ne c i k (by omega)]
  · rfl
termination_by c.length - i
decreasing_by
  rw [slopeLoopStep_length]
  omega

/-- What the slope loop leaves at index `k ≥ i`: the `toFixed(1)` string of
the slope formula when a following segment with `dx > 0` exists, the
original entry otherwise. -/
theorem slopeLoop_getD_slope (c : List ChartPoint) (i k : ℕ) (hik : i ≤ k) :
    ((slopeLoop c i).getD k default).slope =
      if k + 1 < c.length ∧
          0 < (c.getD (k + 1) default).x - (c.getD k default).x then
        .str (slopeStr ((c.getD (k + 1) default).x - (c.getD k default).x)
          ((c.getD (k + 1) default).y - (c.getD k default).y))
      else (c.getD k default).slope := by
  rw [slopeLoop]
  split
  · rename_i h
    by_cases hk : k = i
    · subst hk
      rw [slopeLoop_getD_lt (slopeLoopStep c k) (k + 1) k (by omega)]
      rw [slopeLoopStep]
      split
      · rename_i hdx
        rw [getD_set_self c k _ default (by omega)]
        rw [if_pos ⟨by omega, hdx⟩]
      · rename_i hdx
        rw [if_neg (fun hc => hdx hc.2)]
    · rw [slopeLoop_getD_slope (slopeLoopStep c i) (i + 1) k (by omega)]
      rw [slopeLoopStep_getD_ne c i k (fun he => hk he.symm),
        slopeLoopStep_getD_ne c i (k + 1) (by omega),
        slopeLoopStep_length]
  · rename_i h
    rw [if_neg (fun hc => h (by omega))]
termination_by c.length - i
decreasing_by
  rw [slopeLoopStep_length]
  omega

/-- The initial chart projection, index-wise (also holds out of range, where
both sides degenerate to the defaults). -/
theorem chartInit_getD (pts : List Point) (k : ℕ) :
    (chartInit pts).getD k default =
      { x := (pts.getD k default).x, y := (pts.getD k default).y,
        slope := .num 0 } := by
  by_cases hk : k < pts.length
  · have hk' : k < (chartInit pts).length := by simpa [chartInit] using hk
    rw [List.getD_eq_getElem _ _ hk', List.getD_eq_getElem _ _ hk]
    simp [chartInit]
  · rw [List.getD_eq_default _ _ (by simpa [chartInit] using not_lt.mp hk),
      List.getD_eq_default _ _ (by omega)]
    rfl

theorem chartInit_length (pts : List Point) :
    (chartInit pts).length = pts.length := by
  simp [chartInit]

/-- The slope stored at index `k` of the annotated chart data. -/
theorem annotateSlopes_slope_at (pts : List Point) (k : ℕ) :
    ((annotateSlopes pts).getD k default).slope =
      if k + 1 < pts.length ∧
          0 < (pts.getD (k + 1) default).x - (pts.getD k default).x then
        .str (slopeStr ((pts.getD (k + 1) default).x - (pts.getD k default).x)
          ((pts.getD (k + 1) default).y - (pts.getD k default).y))
      else .num 0 := by
  rw [annotateSlopes, slopeLoop_getD_slope (chartInit pts) 0 k (Nat.zero_le k),
    chartInit_length, chartInit_getD, chartInit_getD]

theorem annotateSlopes_length (pts : List Point) :
    (annotateSlopes pts).length = pts.length := by
  rw [annotateSlopes, slopeLoop_length, chartInit_length]

/-! ## Claim C2 — slope annotation -/

/-- C2, corrected: for consecutive simplified points with `dx > 0` the slope
attached to `p_i` is `atan(grade/100) * 180/π` rounded to one decimal — but
as the *string* produced by `.toFixed(1)`, not a number as the output
contract `{x: number, y: number, slope: number}` states; with `dx = 0` the
numeric default 0 remains. -/
theorem slope_annotation_formula (pts : List Point) (i : ℕ)
    (h : i + 1 < pts.length) :
    (0 < (pts.getD (i + 1) default).x - (pts.getD i default).x →
      ((annotateSlopes pts).getD i default).slope =
        .str (roundTo1 (Real.arctan
          (((((pts.getD (i + 1) default).y - (pts.getD i default).y) /
              ((pts.getD (i + 1) default).x - (pts.getD i default).x) *
              100 / 100 : ℚ)) : ℝ) * 180 / Real.pi))) ∧
    ((pts.getD (i + 1) default).x - (pts.getD i default).x = 0 →
      ((annotateSlopes pts).getD i default).slope = .num 0) := by
  constructor
  · intro hdx
    rw [annotateSlopes_slope_at, if_pos ⟨h, hdx⟩]
    rfl
  · intro hdx
    rw [annotateSlopes_slope_at,
      if_neg (by rw [hdx]; exact fun hc => lt_irrefl 0 hc.2)]

/-- Counterexample to C2 as stated: on the segment from `(0,0)` to
`(100,100)` the attached slope is the *string* with numeric content 45.0
(`.toFixed(1)` returns a string), not the number 45 that the output
contract's `slope: number` would require. -/
theorem slope_is_string_not_number :
    ((annotateSlopes [⟨0, 0⟩, ⟨100, 100⟩]).getD 0 default).slope =
      SlopeVal.str 45 ∧
    SlopeVal.str (45 : ℝ) ≠ SlopeVal.num 45 := by
  have hval : slopeStr 100 100 = 45 := by
    rw [slopeStr, slopeDegVal]
    norm_num
    rw [roundTo1]
    rw [show Real.pi / 4 * 180 / Real.pi * 10 = 450 * (Real.pi / Real.pi) by
        ring,
      div_self Real.pi_ne_zero, mul_one]
    rw [show ((450 : ℝ)) = ((450 : ℤ) : ℝ) by norm_num, round_intCast]
    norm_num
  constructor
  · rw [annotateSlopes_slope_at]
    norm_num [hval]
  · simp

/-- Witness for C2 (amended): a rising segment gets the string slope, a
vertical pair of equal distances keeps the numeric default 0. -/
theorem slope_annotation_formula_witness :
    (0 + 1 < ([⟨0, 0⟩, ⟨25, 10⟩] : List Point).length ∧
      ((annotateSlopes [⟨0, 0⟩, ⟨25, 10⟩]).getD 0 default).slope =
        .str (slopeStr 25 10)) ∧
    (0 + 1 < ([⟨10, 1⟩, ⟨10, 2⟩] : List Point).length ∧
      ((annotateSlopes [⟨10, 1⟩, ⟨10, 2⟩]).getD 0 default).slope =
        .num 0) := by
  constructor
  · refine ⟨by norm_num, ?_⟩
    have h := (slope_annotation_formula [⟨0, 0⟩, ⟨25, 10⟩] 0
      (by norm_num)).1 (by norm_num)
    rw [h]
    norm_num [slopeStr, slopeDegVal]
  · refine ⟨by norm_num, ?_⟩
    exact (slope_annotation_formula [⟨10, 1⟩, ⟨10, 2⟩] 0 (by norm_num)).2
      (by norm_num)

/-! ## Claim C8 — last chart point's slope -/

/-- C8: the last chart point of the annotated sequence always carries the
numeric slope 0 (no following segment; the slope loop stops before it). -/
theorem last_chart_point_slope_zero (pts : List Point) (h : pts ≠ []) :
    ((annotateSlopes pts).getD ((annotateSlopes pts).length - 1)
      default).slope = .num 0 := by
  have h0 : 0 < pts.length := List.length_pos.mpr h
  rw [annotateSlopes_length, annotateSlopes_slope_at]
  rw [if_neg (fun hc => absurd hc.1 (by omega))]

/-- Witness for C8 on a one-point chart. -/
theorem last_chart_point_slope_zero_witness :
    ([⟨0, 5⟩] : List Point) ≠ [] ∧
    ((annotateSlopes [⟨0, 5⟩]).getD
      ((annotateSlopes [⟨0, 5⟩]).length - 1) default).slope = .num 0 :=
  ⟨by simp, last_chart_point_slope_zero [⟨0, 5⟩] (by simp)⟩

/-! ## Claim C1 — NoTrackData error -/

/-- Counterexample to C1 as stated: an input whose single (first) track has
zero points does not get the distinct NoTrackData error — the code only
checks `tracks.length === 0`, and the resampler then crashes with a
TypeError (`points[points.length - 1]` is `undefined`). -/
theorem empty_points_crashes_not_noTrackData :
    processGPX [⟨[], [], 0⟩] = .error .typeError ∧
    JsErr.typeError ≠ JsErr.noTrackData := by
  constructor
  · simp [processGPX]
  · simp

/-- C1 amended: only a parsed input with zero tracks raises the distinct
NoTrackData error (before any numeric stage, with no stats or chartData
produced); a first track with zero points is not checked and instead
crashes with a TypeError. -/
theorem noTrackData_only_for_zero_tracks :
    processGPX [] = .error .noTrackData ∧
    (∀ (track : Track) (rest : List Track), track.points = [] →
      processGPX (track :: rest) = .error .typeError) := by
  constructor
  · simp [processGPX]
  · intro track rest hp
    simp [processGPX, hp]

/-- Witness for the amended C1: a concrete empty-points track crashes with
a TypeError. -/
theorem noTrackData_only_for_zero_tracks_witness :
    (⟨[], [], 5⟩ : Track).points = [] ∧
    processGPX [⟨[], [], 5⟩] = .error .typeError :=
  ⟨rfl, noTrackData_only_for_zero_tracks.2 ⟨[], [], 5⟩ [] rfl⟩

/-! ## Claim C3 — max/min elevation come from the smoothed series -/

theorem toFixedVal_zero (x : ℚ) : toFixedVal 0 x = ((round x : ℤ) : ℚ) := by
  rw [toFixedVal]
  norm_num

/-- C3: on every successfully processed input, the reported `maxElevation`
and `minElevation` are the max/min elevation over the *smoothed* sample
sequence (not the raw points nor the unsmoothed resampled series), rounded
to integers (`toFixed(0)`, modelled by its numeric content). -/
theorem stats_elevation_from_smoothed (track : Track) (rest : List Track)
    (hpts : track.points ≠ []) (htot : 0 ≤ track.total) :
    (processGPX (track :: rest)).isOk = true ∧
    (statsOf (processGPX (track :: rest))).maxElevation =
      ((round (listMax ((smooth (resampleDefault track) halfWindow).map
        (·.ele))) : ℤ) : ℚ) ∧
    (statsOf (processGPX (track :: rest))).minElevation =
      ((round (listMin ((smooth (resampleDefault track) halfWindow).map
        (·.ele))) : ℤ) : ℚ) := by
  have hres : resampleDefault track =
      sampleAt track.points track.cumul
          (advanceIdx track.cumul track.points.length 0 0) 0 ::
        resampleFrom track.points track.cumul track.total SAMPLE_DISTANCE
          (by norm_num [SAMPLE_DISTANCE])
          (advanceIdx track.cumul track.points.length 0 0)
          (0 + SAMPLE_DISTANCE) := by
    rw [resampleDefault, resample, resampleFrom_step htot]
  have hne : (resampleDefault track).isEmpty = false := by
    rw [hres]
    rfl
  have hpe : track.points.isEmpty = false := by
    cases hp : track.points with
    | nil => exact absurd hp hpts
    | cons a l => rfl
  simp only [processGPX, hpe, Bool.false_eq_true, if_false, hne, statsOf,
    mkStats, toFixedVal_zero]
  refine ⟨rfl, ?_, ?_⟩ <;> simp

/-- Witness for C3: a one-point track at elevation 7 reports max = min = 7,
taken from the smoothed series. -/
theorem stats_elevation_from_smoothed_witness :
    (⟨[⟨7⟩], [0], 0⟩ : Track).points ≠ [] ∧ (0 : ℚ) ≤ 0 ∧
    (processGPX [⟨[⟨7⟩], [0], 0⟩]).isOk = true ∧
    (statsOf (processGPX [⟨[⟨7⟩], [0], 0⟩])).maxElevation = 7 ∧
    (statsOf (processGPX [⟨[⟨7⟩], [0], 0⟩])).minElevation = 7 := by
  have h := stats_elevation_from_smoothed ⟨[⟨7⟩], [0], 0⟩ []
    (by simp) (le_refl 0)
  have hres : resampleDefault ⟨[⟨7⟩], [0], 0⟩ = [⟨0, 7⟩] := by
    rw [resampleDefault, resample, resampleFrom_step (le_refl 0),
      advanceIdx_stop (by simp),
      resampleFrom_stop (by norm_num [SAMPLE_DISTANCE])]
    simp [sampleAt]
  have hsm : smooth [(⟨0, 7⟩ : Sample)] halfWindow = [⟨0, 7⟩] := by
    have hh : halfWindow = 2 := by
      norm_num [halfWindow, windowSize, SMOOTH_DISTANCE, SAMPLE_DISTANCE]
      decide
    rw [hh]
    norm_num [smooth, List.range_succ, smoothAt, winSum_spec,
      Finset.Icc_self, Finset.sum_singleton]
  refine ⟨by simp, le_refl 0, h.1, ?_, ?_⟩
  · rw [h.2.1, hres, hsm]
    norm_num [listMax]
  · rw [h.2.2, hres, hsm]
    norm_num [listMin]

end GpxVisual
